import Mathlib

/-!
Shallow embedding of the core of `bravo/factories/beta.py` (class
`BravoFactory`), covering:

* `register_entity` — entity-id allocation (counter `self.eid`, starts at 1);
* `set_username` — the username table `self.protocols`;
* `update_time` / `update_season` — the day/season clock;
* `create_entity` / `give` — pickup spawning and the ordering of the
  chunk-attach continuation versus the creation broadcast.

Python `dict`s are embedded as association lists with dictionary semantics
(first-match lookup, key deletion, replace-or-append assignment); the float
time counter is embedded as an exact rational; `while` loops become
well-founded recursion with the same guard and body.
-/

/-! ## Entity registration (`BravoFactory.register_entity`) -/

/-- `BravoFactory.register_entity`: if the entity's eid is falsy (zero), bump
the factory counter `self.eid` and assign it; otherwise leave both untouched.
Returns `(new counter, entity eid after the call)`. -/
def register_entity (counter : Nat) (eid : Nat) : Nat × Nat :=
  if eid = 0 then (counter + 1, counter + 1) else (counter, eid)

/-- The ids handed out by `n` successive fresh registrations (entities whose
eid is 0) starting from counter value `c`, in order. -/
def allocIds : Nat → Nat → List Nat
  | _, 0 => []
  | c, Nat.succ n => (register_entity c 0).2 :: allocIds (register_entity c 0).1 n

theorem allocIds_eq_map_range (c n : Nat) :
    allocIds c n = (List.range n).map (fun i => c + 1 + i) := by
  induction n generalizing c with
  | zero => simp [allocIds]
  | succ n ih =>
      simp only [allocIds]
      rw [show register_entity c 0 = (c + 1, c + 1) from rfl]
      rw [ih, List.range_succ_eq_map, List.map_cons, List.map_map]
      refine List.cons_eq_cons.mpr ⟨by omega, ?_⟩
      congr 1
      funext i
      simp only [Function.comp_apply]
      omega

theorem allocIds_pairwise (c n : Nat) : (allocIds c n).Pairwise (· < ·) := by
  rw [allocIds_eq_map_range]
  refine List.Pairwise.map _ (fun a b h => ?_) (List.pairwise_lt_range n)
  omega

theorem allocIds_pos (c n : Nat) : ∀ x ∈ allocIds c n, 0 < x := by
  rw [allocIds_eq_map_range]
  intro x hx
  simp only [List.mem_map] at hx
  obtain ⟨i, _, rfl⟩ := hx
  omega

/-! ## Username table (`BravoFactory.set_username`)

`self.protocols` is a Python dict mapping username strings to protocol
objects.  Protocols are represented by numeric ids; a protocol's mutable
`username` attribute is threaded explicitly. -/

/-- Dict lookup: value of the first (and, for a dict, only) entry with the
given key. -/
def dictLookup (d : List (String × Nat)) (k : String) : Option Nat :=
  match d with
  | [] => none
  | e :: rest => if e.1 = k then some e.2 else dictLookup rest k

/-- Dict deletion `del d[k]`: drop the entries with key `k`. -/
def dictDel (d : List (String × Nat)) (k : String) : List (String × Nat) :=
  d.filter (fun e => decide (e.1 ≠ k))

/-- Dict assignment `d[k] = v`: replace the value in place if the key is
present, else append a new entry (Python dicts keep insertion order). -/
def dictSet (d : List (String × Nat)) (k : String) (v : Nat) : List (String × Nat) :=
  if (dictLookup d k).isSome then
    d.map (fun e => if e.1 = k then (k, v) else e)
  else d ++ [(k, v)]

/-- `BravoFactory.set_username(protocol, username)`.  `table` is
`self.protocols`, `pid` the calling protocol, `puser` its current `username`
attribute.  Returns `(result, new table, new username attribute)`, mirroring
the code: refuse if the name is taken, else drop the old mapping (if any),
install the new one and update the attribute. -/
def set_username (table : List (String × Nat)) (pid : Nat) (puser : String)
    (username : String) : Bool × List (String × Nat) × String :=
  if (dictLookup table username).isSome then
    (false, table, puser)
  else
    let table2 := if (dictLookup table puser).isSome then dictDel table puser else table
    (true, dictSet table2 username pid, username)

theorem dictLookup_nil (k : String) : dictLookup [] k = none := rfl

theorem dictLookup_cons (e : String × Nat) (rest : List (String × Nat)) (k : String) :
    dictLookup (e :: rest) k = if e.1 = k then some e.2 else dictLookup rest k := rfl

theorem dictLookup_eq_none_iff (d : List (String × Nat)) (k : String) :
    dictLookup d k = none ↔ ∀ e ∈ d, e.1 ≠ k := by
  induction d with
  | nil => simp [dictLookup_nil]
  | cons e rest ih =>
      by_cases h : e.1 = k
      · simp [dictLookup_cons, h]
      · simp [dictLookup_cons, h, ih]

theorem dictLookup_filter_none (d : List (String × Nat)) (k : String)
    (p : String × Nat → Bool) (h : dictLookup d k = none) :
    dictLookup (d.filter p) k = none := by
  rw [dictLookup_eq_none_iff] at h ⊢
  intro e he
  exact h e (List.mem_of_mem_filter he)

theorem dictLookup_dictDel_self (d : List (String × Nat)) (k : String) :
    dictLookup (dictDel d k) k = none := by
  rw [dictLookup_eq_none_iff]
  intro e he
  have := List.of_mem_filter he
  simpa using this

theorem dictLookup_append_single_self (d : List (String × Nat)) (k : String) (v : Nat)
    (h : dictLookup d k = none) : dictLookup (d ++ [(k, v)]) k = some v := by
  induction d with
  | nil => simp [dictLookup_cons, dictLookup_nil]
  | cons e rest ih =>
      by_cases he : e.1 = k
      · rw [dictLookup_cons, if_pos he] at h
        exact absurd h (by simp)
      · rw [dictLookup_cons, if_neg he] at h
        rw [List.cons_append, dictLookup_cons, if_neg he]
        exact ih h

theorem dictLookup_append_single_other (d : List (String × Nat)) (k k' : String)
    (v : Nat) (h : k' ≠ k) : dictLookup (d ++ [(k, v)]) k' = dictLookup d k' := by
  induction d with
  | nil =>
      rw [List.nil_append, dictLookup_cons, if_neg (fun hk => h hk.symm)]
  | cons e rest ih =>
      by_cases he : e.1 = k'
      · rw [List.cons_append, dictLookup_cons, if_pos he, dictLookup_cons, if_pos he]
      · rw [List.cons_append, dictLookup_cons, if_neg he, dictLookup_cons, if_neg he]
        exact ih

theorem countP_key_eq_zero (d : List (String × Nat)) (k : String)
    (h : dictLookup d k = none) :
    d.countP (fun e => decide (e.1 = k)) = 0 := by
  rw [dictLookup_eq_none_iff] at h
  rw [List.countP_eq_zero]
  intro e he
  simpa using h e he

/-- C8: `register_entity` never assigns id zero; the ids handed out by a
sequence of fresh allocations are strictly increasing; and calling it on an
entity whose eid is already non-zero changes neither the entity's eid nor
the allocation counter. -/
theorem register_entity_spec :
    (∀ c n : Nat, (allocIds c n).Pairwise (· < ·) ∧ 0 ∉ allocIds c n) ∧
    (∀ c e : Nat, e ≠ 0 → register_entity c e = (c, e)) := by
  constructor
  · intro c n
    refine ⟨allocIds_pairwise c n, fun h => ?_⟩
    exact absurd (allocIds_pos c n 0 h) (by omega)
  · intro c e he
    simp [register_entity, he]

/-- Witness for C8 at concrete inputs: three allocations from the initial
counter value 1, and a no-op call on an entity with eid 7. -/
theorem register_entity_spec_witness :
    (allocIds 1 3).Pairwise (· < ·) ∧ 0 ∉ allocIds 1 3 ∧ register_entity 5 7 = (5, 7) :=
  ⟨(register_entity_spec.1 1 3).1, (register_entity_spec.1 1 3).2,
    register_entity_spec.2 5 7 (by decide)⟩

/-- C4: `set_username` with a name already registered to a different live
connection returns `False` and leaves both the connection table and the
caller's username attribute exactly as they were. -/
theorem set_username_taken_unchanged (table : List (String × Nat)) (pid : Nat)
    (puser username : String) (q : Nat) (hq : dictLookup table username = some q)
    (hne : q ≠ pid) :
    set_username table pid puser username = (false, table, puser) := by
  rw [set_username, if_pos (by simp [hq])]

/-- Witness for C4: "alice" is registered to connection 1, so connection 2
cannot take it; the table and connection 2's username are untouched. -/
theorem set_username_taken_unchanged_witness :
    set_username [("alice", 1)] 2 "bob" "alice" = (false, [("alice", 1)], "bob") :=
  set_username_taken_unchanged [("alice", 1)] 2 "bob" "alice" 1 (by decide) (by decide)

/-- C10: re-asserting one's own current username fails: if the caller is
registered under `username` in the table, `set_username` with that same name
returns `False` and changes nothing — the taken-name check does not exempt
the caller itself. -/
theorem set_username_self_rename_fails (table : List (String × Nat)) (pid : Nat)
    (username : String) (hq : dictLookup table username = some pid) :
    set_username table pid username username = (false, table, username) := by
  rw [set_username, if_pos (by simp [hq])]

/-- Witness for C10: connection 1 already holds "alice" and re-asserts it. -/
theorem set_username_self_rename_fails_witness :
    set_username [("alice", 1)] 1 "alice" "alice" = (false, [("alice", 1)], "alice") :=
  set_username_self_rename_fails [("alice", 1)] 1 "alice" (by decide)

/-- C5: when `set_username` succeeds for name `username`, afterwards the table
maps `username` to the caller, exactly one table entry carries that name, the
caller's username attribute becomes `username`, and no entry remains under the
caller's previous name unless that previous name is `username` itself. -/
theorem set_username_success_spec (table : List (String × Nat)) (pid : Nat)
    (puser username : String)
    (hs : (set_username table pid puser username).1 = true) :
    dictLookup (set_username table pid puser username).2.1 username = some pid ∧
    (set_username table pid puser username).2.1.countP
      (fun e => decide (e.1 = username)) = 1 ∧
    (set_username table pid puser username).2.2 = username ∧
    (puser ≠ username →
      dictLookup (set_username table pid puser username).2.1 puser = none) := by
  by_cases htaken : (dictLookup table username).isSome
  · rw [set_username, if_pos htaken] at hs
    simp at hs
  · have hnone : dictLookup table username = none := by
      cases h : dictLookup table username with
      | none => rfl
      | some v => rw [h] at htaken; simp at htaken
    rw [set_username, if_neg htaken] at hs ⊢
    simp only at hs ⊢
    set table2 := if (dictLookup table puser).isSome then dictDel table puser else table
      with htable2
    have h2none : dictLookup table2 username = none := by
      rw [htable2]
      by_cases hp : (dictLookup table puser).isSome
      · rw [if_pos hp]
        exact dictLookup_filter_none table username _ hnone
      · rw [if_neg hp]
        exact hnone
    have hset : dictSet table2 username pid = table2 ++ [(username, pid)] := by
      rw [dictSet, if_neg (by simp [h2none])]
    refine ⟨?_, ?_, by simp, ?_⟩
    · rw [hset]
      exact dictLookup_append_single_self table2 username pid h2none
    · rw [hset, List.countP_append, countP_key_eq_zero table2 username h2none]
      simp
    · intro hne
      rw [hset, dictLookup_append_single_other table2 username puser pid hne]
      rw [htable2]
      by_cases hp : (dictLookup table puser).isSome
      · rw [if_pos hp]
        exact dictLookup_dictDel_self table puser
      · rw [if_neg hp]
        cases h : dictLookup table puser with
        | none => rfl
        | some v => rw [h] at hp; simp at hp

/-- Witness for C5: connection 2 (previously "bob") successfully takes the
free name "carol" while "alice" stays with connection 1. -/
theorem set_username_success_spec_witness :
    dictLookup (set_username [("alice", 1), ("bob", 2)] 2 "bob" "carol").2.1
      "carol" = some 2 ∧
    (set_username [("alice", 1), ("bob", 2)] 2 "bob" "carol").2.1.countP
      (fun e => decide (e.1 = "carol")) = 1 ∧
    (set_username [("alice", 1), ("bob", 2)] 2 "bob" "carol").2.2 = "carol" ∧
    ("bob" ≠ "carol" →
      dictLookup (set_username [("alice", 1), ("bob", 2)] 2 "bob" "carol").2.1
        "bob" = none) := by
  have h := set_username_success_spec [("alice", 1), ("bob", 2)] 2 "bob" "carol"
    (by decide)
  exact ⟨h.1, h.2.1, h.2.2.1, fun _ => h.2.2.2 (by decide)⟩

/-! ## The day/season clock (`update_time`, `update_season`)

`self.time` is a Python float advanced by `20 * (wall-clock delta)`; it is
embedded as an exact rational.  `self.day` is an int.  The two `while` loops
of `update_time` use strict comparisons (`> 24000`, `> 360`), reproduced
verbatim below. -/

/-- A season plugin: `sid` distinguishes plugin instances, `day` is the
season's start day (`ISeason.day`). -/
structure Season where
  sid : Nat
  day : Int
deriving DecidableEq, Repr

/-- Sort key used by `update_season`: Python's `sorted(self.seasons,
key=lambda s: s.day)` orders by start day (stably). -/
def seasonLe (a b : Season) : Prop := a.day ≤ b.day

instance : DecidableRel seasonLe := fun a b => inferInstanceAs (Decidable (a.day ≤ b.day))

instance : IsTotal Season seasonLe := ⟨fun a b => le_total a.day b.day⟩

instance : IsTrans Season seasonLe := ⟨fun _ _ _ h h2 => le_trans h h2⟩

/-- `BravoFactory.update_season`: stably sort the configured seasons by start
day, keep those whose start day is at most the current day, and pick the last
of them; if none has started yet, pick the last season of the sorted list
("last season of the previous year"); with no seasons, the world has none.
`List.insertionSort` with a non-strict key comparison is a stable sort, as is
Python's `sorted`. -/
def update_season (seasons : List Season) (day : Int) : Option Season :=
  let all_seasons := List.insertionSort seasonLe seasons
  let past_seasons := all_seasons.filter (fun s => decide (s.day ≤ day))
  if past_seasons.isEmpty then
    if all_seasons.isEmpty then none
    else all_seasons.getLast?
  else past_seasons.getLast?

/-- The clock state mutated by `update_time`: `self.time`, `self.day`, and
the active season reference `self.world.season`. -/
structure ClockState where
  time : ℚ
  day : Int
  season : Option Season
deriving DecidableEq, Repr

/-- The inner loop of `update_time`: `while self.day > 360: self.day -= 360`. -/
def reduceDay (d : Int) : Int :=
  if d > 360 then reduceDay (d - 360) else d
termination_by d.toNat
decreasing_by
  simp_wf
  omega

/-- The outer loop of `update_time`: `while self.time > 24000`, subtract a
day's worth of ticks, bump and reduce the day counter, and recompute the
season. -/
def timeLoop (seasons : List Season) (time : ℚ) (day : Int) (season : Option Season) :
    ClockState :=
  if time > 24000 then
    let day2 := reduceDay (day + 1)
    timeLoop seasons (time - 24000) day2 (update_season seasons day2)
  else ⟨time, day, season⟩
termination_by (⌈time⌉).toNat
decreasing_by
  simp_wf
  linarith

/-- `BravoFactory.update_time`: add `20 * (t - self.timestamp)` ticks for a
wall-clock delta of `wallDelta` seconds, then run the wrap loops. -/
def update_time (seasons : List Season) (st : ClockState) (wallDelta : ℚ) : ClockState :=
  timeLoop seasons (st.time + 20 * wallDelta) st.day st.season

/-- The clock state right after `startFactory`: `self.time` comes from the
world store, `self.day` keeps its class default 0, and `update_season` has
just run on that day. -/
def initState (seasons : List Season) (storedTime : ℚ) : ClockState :=
  ⟨storedTime, 0, update_season seasons 0⟩

theorem reduceDay_of_le (d : Int) (h : d ≤ 360) : reduceDay d = d := by
  rw [reduceDay]
  exact if_neg (by omega)

theorem reduceDay_of_gt (d : Int) (h : 360 < d) : reduceDay d = reduceDay (d - 360) := by
  conv_lhs => rw [reduceDay]
  exact if_pos (by omega)

theorem reduceDay_nonneg (d : Int) (h : 0 ≤ d) : 0 ≤ reduceDay d := by
  induction d using reduceDay.induct with
  | case1 d hd ih =>
      rw [reduceDay_of_gt d hd]
      exact ih (by omega)
  | case2 d hd =>
      rw [reduceDay_of_le d (by omega)]
      exact h

theorem reduceDay_le (d : Int) : reduceDay d ≤ 360 := by
  induction d using reduceDay.induct with
  | case1 d hd ih =>
      rw [reduceDay_of_gt d hd]
      exact ih
  | case2 d hd =>
      rw [reduceDay_of_le d (by omega)]
      omega

theorem timeLoop_stop (seasons : List Season) (time : ℚ) (day : Int)
    (season : Option Season) (h : time ≤ 24000) :
    timeLoop seasons time day season = ⟨time, day, season⟩ := by
  rw [timeLoop]
  exact if_neg (by linarith)

theorem timeLoop_step (seasons : List Season) (time : ℚ) (day : Int)
    (season : Option Season) (h : 24000 < time) :
    timeLoop seasons time day season =
      timeLoop seasons (time - 24000) (reduceDay (day + 1))
        (update_season seasons (reduceDay (day + 1))) := by
  conv_lhs => rw [timeLoop]
  rw [if_pos (by linarith)]

theorem timeLoop_bounds (seasons : List Season) (time : ℚ) (day : Int)
    (season : Option Season) (ht : 0 ≤ time) (hd0 : 0 ≤ day) (hd1 : day ≤ 360) :
    0 ≤ (timeLoop seasons time day season).time ∧
    (timeLoop seasons time day season).time ≤ 24000 ∧
    0 ≤ (timeLoop seasons time day season).day ∧
    (timeLoop seasons time day season).day ≤ 360 := by
  induction time, day, season using timeLoop.induct seasons with
  | case1 time day season h day2 ih =>
      rw [timeLoop_step seasons time day season h]
      exact ih (by linarith) (reduceDay_nonneg _ (by omega)) (reduceDay_le _)
  | case2 time day season h =>
      rw [timeLoop_stop seasons time day season (by linarith)]
      exact ⟨ht, by linarith, hd0, hd1⟩

theorem update_time_single_wrap (seasons : List Season) (st : ClockState)
    (wallDelta : ℚ) (h1 : 24000 < st.time + 20 * wallDelta)
    (h2 : st.time + 20 * wallDelta ≤ 48000) :
    update_time seasons st wallDelta =
      ⟨st.time + 20 * wallDelta - 24000, reduceDay (st.day + 1),
        update_season seasons (reduceDay (st.day + 1))⟩ := by
  rw [update_time, timeLoop_step seasons _ _ _ h1,
    timeLoop_stop seasons _ _ _ (by linarith)]

theorem update_time_no_wrap (seasons : List Season) (st : ClockState)
    (wallDelta : ℚ) (h : st.time + 20 * wallDelta ≤ 24000) :
    update_time seasons st wallDelta =
      ⟨st.time + 20 * wallDelta, st.day, st.season⟩ := by
  rw [update_time, timeLoop_stop seasons _ _ _ h]

theorem sorted_le_getLast (l : List Season) (hs : l.Sorted seasonLe) (x : Season)
    (hx : x ∈ l) (h : l ≠ []) : x.day ≤ (l.getLast h).day := by
  induction l with
  | nil => cases hx
  | cons a t ih =>
      cases t with
      | nil =>
          simp only [List.mem_singleton] at hx
          subst hx
          simp [List.getLast]
      | cons b t2 =>
          rw [List.getLast_cons (by simp)]
          rcases List.mem_cons.mp hx with rfl | hx2
          · have ha := (List.sorted_cons.mp hs).1
            exact ha _ (List.getLast_mem (by simp))
          · exact ih (List.sorted_cons.mp hs).2 hx2 (by simp)


theorem update_season_eq (seasons : List Season) (day : Int) :
    update_season seasons day =
      if ((List.insertionSort seasonLe seasons).filter
          (fun s => decide (s.day ≤ day))).isEmpty then
        if (List.insertionSort seasonLe seasons).isEmpty then none
        else (List.insertionSort seasonLe seasons).getLast?
      else
        ((List.insertionSort seasonLe seasons).filter
          (fun s => decide (s.day ≤ day))).getLast? := rfl

/-- C6: after `update_season`, the active season is the configured season with
the greatest start day not exceeding the current day; if every configured
season starts after the current day, it is the season with the greatest start
day overall; and with no seasons configured it is none.  Concretely: with
starts `[0, 90, 180, 270]` and day 95 the day-90 season is active, and with
starts `[90, 180]` and day 5 the day-180 season is active. -/
theorem update_season_spec (seasons : List Season) (day : Int) :
    (update_season seasons day = none ↔ seasons = []) ∧
    (∀ s, update_season seasons day = some s →
      s ∈ seasons ∧
      (∀ t ∈ seasons, t.day ≤ day → t.day ≤ s.day) ∧
      ((∃ t ∈ seasons, t.day ≤ day) → s.day ≤ day) ∧
      ((∀ t ∈ seasons, day < t.day) → ∀ t ∈ seasons, t.day ≤ s.day)) ∧
    update_season [⟨0, 0⟩, ⟨1, 90⟩, ⟨2, 180⟩, ⟨3, 270⟩] 95 = some ⟨1, 90⟩ ∧
    update_season [⟨0, 90⟩, ⟨1, 180⟩] 5 = some ⟨1, 180⟩ := by
  have hperm := List.perm_insertionSort seasonLe seasons
  have hmem : ∀ x : Season, x ∈ List.insertionSort seasonLe seasons ↔ x ∈ seasons :=
    fun x => hperm.mem_iff
  have hsorted : (List.insertionSort seasonLe seasons).Sorted seasonLe :=
    List.sorted_insertionSort seasonLe seasons
  have hpsorted : ((List.insertionSort seasonLe seasons).filter
      (fun s => decide (s.day ≤ day))).Sorted seasonLe :=
    List.Pairwise.sublist (List.filter_sublist _) hsorted
  have hpmem : ∀ x : Season, x ∈ (List.insertionSort seasonLe seasons).filter
      (fun s => decide (s.day ≤ day)) ↔ x ∈ seasons ∧ x.day ≤ day := by
    intro x
    rw [List.mem_filter, hmem]
    simp
  refine ⟨?_, ?_, by decide, by decide⟩
  · rw [update_season_eq]
    by_cases hpe : ((List.insertionSort seasonLe seasons).filter
        (fun s => decide (s.day ≤ day))).isEmpty
    · by_cases hae : (List.insertionSort seasonLe seasons).isEmpty
      · rw [if_pos hpe, if_pos hae]
        rw [List.isEmpty_iff] at hae
        have hseasons : seasons = [] := by
          have h2 := hperm.symm
          rw [hae] at h2
          exact h2.eq_nil
        simp [hseasons]
      · rw [if_pos hpe, if_neg hae]
        rw [List.isEmpty_iff] at hae
        rw [List.getLast?_eq_getLast_of_ne_nil hae]
        constructor
        · intro h
          exact Option.noConfusion h
        · intro hseasons
          subst hseasons
          simp [List.insertionSort] at hae
    · rw [if_neg hpe]
      rw [List.isEmpty_iff] at hpe
      rw [List.getLast?_eq_getLast_of_ne_nil hpe]
      constructor
      · intro h
        exact Option.noConfusion h
      · intro hseasons
        subst hseasons
        simp [List.insertionSort] at hpe
  · intro s hs
    rw [update_season_eq] at hs
    by_cases hpe : ((List.insertionSort seasonLe seasons).filter
        (fun s => decide (s.day ≤ day))).isEmpty
    · by_cases hae : (List.insertionSort seasonLe seasons).isEmpty
      · rw [if_pos hpe, if_pos hae] at hs
        exact Option.noConfusion hs
      · rw [if_pos hpe, if_neg hae] at hs
        rw [List.isEmpty_iff] at hpe hae
        rw [List.getLast?_eq_getLast_of_ne_nil hae] at hs
        have hs2 := Option.some.inj hs
        have hmax : ∀ t ∈ seasons, t.day ≤ s.day := by
          intro t ht
          have h3 := sorted_le_getLast _ hsorted t ((hmem t).mpr ht) hae
          rw [hs2] at h3
          exact h3
        refine ⟨?_, fun t ht _ => hmax t ht, ?_, fun _ => hmax⟩
        · rw [← hs2]
          exact (hmem _).mp (List.getLast_mem hae)
        · rintro ⟨t, ht, htday⟩
          have : t ∈ ((List.insertionSort seasonLe seasons).filter
              (fun s => decide (s.day ≤ day))) := (hpmem t).mpr ⟨ht, htday⟩
          rw [hpe] at this
          cases this
    · rw [if_neg hpe] at hs
      rw [List.isEmpty_iff] at hpe
      rw [List.getLast?_eq_getLast_of_ne_nil hpe] at hs
      have hs2 := Option.some.inj hs
      have hsf : s ∈ ((List.insertionSort seasonLe seasons).filter
          (fun s => decide (s.day ≤ day))) := by
        rw [← hs2]
        exact List.getLast_mem hpe
      have hsf2 := (hpmem s).mp hsf
      refine ⟨hsf2.1, ?_, fun _ => hsf2.2, ?_⟩
      · intro t ht htday
        have h3 := sorted_le_getLast _ hpsorted t ((hpmem t).mpr ⟨ht, htday⟩) hpe
        rw [hs2] at h3
        exact h3
      · intro hall t ht
        exfalso
        exact absurd (hall s hsf2.1) (by omega)

/-- Witness for C6: instances of the general season-selection rule at the
two concrete configurations named in the claim, plus the empty case. -/
theorem update_season_spec_witness :
    update_season [⟨0, 0⟩, ⟨1, 90⟩, ⟨2, 180⟩, ⟨3, 270⟩] 95 = some ⟨1, 90⟩ ∧
    update_season [⟨0, 90⟩, ⟨1, 180⟩] 5 = some ⟨1, 180⟩ ∧
    update_season [] 5 = none :=
  ⟨(update_season_spec [⟨0, 0⟩, ⟨1, 90⟩, ⟨2, 180⟩, ⟨3, 270⟩] 95).2.2.1,
    (update_season_spec [⟨0, 90⟩, ⟨1, 180⟩] 5).2.2.2,
    (update_season_spec [] 5).1.mpr rfl⟩

theorem timeLoop_add (seasons : List Season) (d : ℚ) (hd : 0 ≤ d) (time : ℚ)
    (day : Int) (season : Option Season) :
    timeLoop seasons ((timeLoop seasons time day season).time + d)
      (timeLoop seasons time day season).day
      (timeLoop seasons time day season).season =
    timeLoop seasons (time + d) day season := by
  induction time, day, season using timeLoop.induct seasons with
  | case1 time day season h day2 ih =>
      rw [timeLoop_step seasons time day season h,
        timeLoop_step seasons (time + d) day season (by linarith),
        show time + d - 24000 = time - 24000 + d from by ring]
      exact ih
  | case2 time day season h =>
      rw [timeLoop_stop seasons time day season (by linarith)]

theorem update_time_add (seasons : List Season) (st : ClockState) (d1 d2 : ℚ)
    (hd2 : 0 ≤ d2) :
    update_time seasons (update_time seasons st d1) d2 =
      update_time seasons st (d1 + d2) := by
  have h := timeLoop_add seasons (20 * d2) (by linarith) (st.time + 20 * d1)
    st.day st.season
  rw [update_time, update_time, update_time]
  rw [show st.time + 20 * (d1 + d2) = st.time + 20 * d1 + 20 * d2 from by ring]
  exact h

/-- C9: a single clock update by a wall-clock delta equals any non-empty
sequence of updates with non-negative deltas summing to it: the final
(time, day, season) state is identical. -/
theorem update_time_decomposition (seasons : List Season) (st : ClockState)
    (ds : List ℚ) (hne : ds ≠ []) (h : ∀ d ∈ ds, 0 ≤ d) :
    List.foldl (update_time seasons) st ds = update_time seasons st ds.sum := by
  induction ds generalizing st with
  | nil => exact absurd rfl hne
  | cons d rest ih =>
      cases rest with
      | nil => simp [List.foldl]
      | cons d2 rest2 =>
          rw [List.foldl_cons,
            ih (update_time seasons st d) (by simp) (fun x hx => h x (by simp [hx])),
            update_time_add seasons st d (d2 :: rest2).sum
              (List.sum_nonneg (fun x hx => h x (by simp [hx])))]
          simp [List.sum_cons]

/-- Witness for C9: two 600-second updates from the initial clock state give
the same result as one 1200-second update. -/
theorem update_time_decomposition_witness :
    List.foldl (update_time []) ⟨0, 0, none⟩ [600, 600] =
      update_time [] ⟨0, 0, none⟩ 1200 := by
  have h := update_time_decomposition [] ⟨0, 0, none⟩ [600, 600] (by simp)
    (by intro d hd; simp at hd; rcases hd with rfl | rfl <;> norm_num)
  norm_num at h ⊢
  exact h

/-- C1 (amended): bounds after a clock update are the inclusive ones.  From
any state with `0 ≤ time`, `0 ≤ day ≤ 360` and a non-negative wall-clock
delta, `update_time` yields `0 ≤ time ≤ 24000` and `0 ≤ day ≤ 360`; the
strict bounds `time < 24000`, `day < 360` of the claim do not hold because
both wrap loops use strict comparisons. -/
theorem clock_bounds_amended (seasons : List Season) (st : ClockState)
    (wallDelta : ℚ) (ht : 0 ≤ st.time) (hd0 : 0 ≤ st.day) (hd1 : st.day ≤ 360)
    (hw : 0 ≤ wallDelta) :
    0 ≤ (update_time seasons st wallDelta).time ∧
    (update_time seasons st wallDelta).time ≤ 24000 ∧
    0 ≤ (update_time seasons st wallDelta).day ∧
    (update_time seasons st wallDelta).day ≤ 360 :=
  timeLoop_bounds seasons (st.time + 20 * wallDelta) st.day st.season
    (by linarith) hd0 hd1

/-- Witness for C1's amended bounds at the initial state with a zero delta. -/
theorem clock_bounds_amended_witness :
    0 ≤ (update_time [] ⟨0, 0, none⟩ 0).time ∧
    (update_time [] ⟨0, 0, none⟩ 0).time ≤ 24000 ∧
    0 ≤ (update_time [] ⟨0, 0, none⟩ 0).day ∧
    (update_time [] ⟨0, 0, none⟩ 0).day ≤ 360 :=
  clock_bounds_amended [] ⟨0, 0, none⟩ 0 (by norm_num) (by norm_num)
    (by norm_num) (by norm_num)

theorem iterate_update_day :
    ∀ n : Nat, n ≤ 359 →
      (fun s => update_time [] s 1201)^[n] (initState [] 0) =
        ⟨20 * n, n, none⟩ := by
  intro n
  induction n with
  | zero =>
      intro _
      rw [Function.iterate_zero_apply, initState]
      simp only [ClockState.mk.injEq]
      refine ⟨by norm_num, by norm_num, rfl⟩
  | succ n ih =>
      intro hn
      have hc : (0 : ℚ) ≤ (n : ℚ) := Nat.cast_nonneg n
      have hc2 : (n : ℚ) ≤ 358 := by exact_mod_cast show n ≤ 358 by omega
      have h1 : (24000 : ℚ) < 20 * (n : ℚ) + 20 * 1201 := by linarith
      have h2 : 20 * (n : ℚ) + 20 * 1201 ≤ 48000 := by linarith
      rw [Function.iterate_succ_apply', ih (by omega),
        update_time_single_wrap [] ⟨20 * n, n, none⟩ 1201 h1 h2,
        reduceDay_of_le ((n : Int) + 1) (by omega)]
      simp only [ClockState.mk.injEq]
      refine ⟨by push_cast; ring, by push_cast; ring, rfl⟩

/-- C1 counterexample: the strict bounds are violated on reachable states.
From the initial clock state, a 1200-second delta lands `time` exactly on
24000 (the loop guard is `> 24000`, so no wrap happens), and from the
reachable day-359 state a single day-boundary crossing leaves `day = 360`
(the day loop guard is `> 360`). -/
theorem clock_bounds_counterexample :
    ¬ ((update_time [] (initState [] 0) 1200).time < 24000) ∧
    ¬ ((update_time []
        ((fun s => update_time [] s 1201)^[359] (initState [] 0)) 900).day < 360) := by
  constructor
  · rw [update_time_no_wrap [] (initState [] 0) 1200 (by rw [initState]; norm_num)]
    rw [initState]
    norm_num
  · rw [iterate_update_day 359 (by norm_num)]
    have h1 : (24000 : ℚ) < 20 * ((359 : Nat) : ℚ) + 20 * 900 := by norm_num
    have h2 : 20 * ((359 : Nat) : ℚ) + 20 * 900 ≤ 48000 := by norm_num
    rw [update_time_single_wrap [] ⟨20 * (359 : Nat), (359 : Nat), none⟩ 900 h1 h2,
      reduceDay_of_le (((359 : Nat) : Int) + 1) (by omega)]
    norm_num

/-- C2 (amended): starting from day 359, a clock advance crossing the
24000-tick boundary exactly once sets the day counter to 360, not 0; the day
counter wraps only once it exceeds 360, so the next crossing takes it from
361 to 1 (0 is never revisited). -/
theorem day_wrap_amended (seasons : List Season) (st : ClockState)
    (wallDelta : ℚ) (h1 : 24000 < st.time + 20 * wallDelta)
    (h2 : st.time + 20 * wallDelta ≤ 48000) :
    (st.day = 359 → (update_time seasons st wallDelta).day = 360) ∧
    (st.day = 360 → (update_time seasons st wallDelta).day = 1) := by
  rw [update_time_single_wrap seasons st wallDelta h1 h2]
  constructor
  · intro h
    rw [h]
    rw [show (359 : Int) + 1 = 360 from by norm_num,
      reduceDay_of_le 360 (by norm_num)]
  · intro h
    rw [h]
    rw [show (360 : Int) + 1 = 361 from by norm_num,
      reduceDay_of_gt 361 (by norm_num),
      show (361 : Int) - 360 = 1 from by norm_num,
      reduceDay_of_le 1 (by norm_num)]

/-- Witness for C2's amended claim: from time 23990, day 359, a one-second
advance crosses the boundary once and yields day 360. -/
theorem day_wrap_amended_witness :
    (update_time [] ⟨23990, 359, none⟩ 1).day = 360 :=
  (day_wrap_amended [] ⟨23990, 359, none⟩ 1 (by norm_num) (by norm_num)).1 rfl

/-- C2 counterexample: from time 23990, day 359, a one-second advance crosses
the 24000-tick boundary exactly once; the resulting state is
`(time 10, day 360)` — the day counter does not wrap to 0. -/
theorem day_wrap_counterexample :
    update_time [] ⟨23990, 359, none⟩ 1 = ⟨10, 360, none⟩ ∧
    (update_time [] ⟨23990, 359, none⟩ 1).day ≠ 0 := by
  have h := update_time_single_wrap [] ⟨23990, 359, none⟩ 1 (by norm_num) (by norm_num)
  rw [show (359 : Int) + 1 = 360 from by norm_num,
    reduceDay_of_le 360 (by norm_num)] at h
  constructor
  · rw [h]
    simp only [ClockState.mk.injEq]
    exact ⟨by norm_num, by trivial, by rfl⟩
  · rw [h]
    norm_num

/-! ## Entity creation and pickups (`create_entity`, `give`)

`world.request_chunk` returns a deferred; `create_entity` chains the
attachment (`chunk.entities.add(entity)`) as a callback on it, while `give`
broadcasts the creation packet synchronously right after `create_entity`
returns.  The embedding records the synchronous events of a call and the
pending continuation events separately; `asyncTrace` is the observable event
order in the schedule where the requested chunk is not yet loaded, so every
deferred continuation fires only after the synchronous body has returned
(completion-order semantics of deferred callbacks). -/

/-- A spawned pickup ("Item" entity): id, block coordinates, item key and
stack size, as built by `give` via `create_entity`. -/
structure Pickup where
  eid : Nat
  x : Int
  y : Int
  z : Int
  item : Int × Int
  quantity : Int
deriving DecidableEq, Repr

/-- Observable events of entity creation: a chunk request, the deferred
attachment of an entity to the chunk's entity set, and the broadcast of the
entity-creation packet. -/
inductive Event where
  | chunkRequested (bigx bigz : Int)
  | attached (eid : Nat) (bigx bigz : Int)
  | broadcastCreate (eid : Nat)
deriving DecidableEq, Repr

/-- Result of `create_entity`: the updated eid counter, the new entity's id,
the events performed synchronously, and the events pending on the chunk
deferred. -/
structure CreateResult where
  counter : Nat
  eid : Nat
  syncEvents : List Event
  pendingEvents : List Event
deriving DecidableEq, Repr

/-- `BravoFactory.create_entity`: build the entity with `eid=0`, register it
(allocating an id), request the chunk at `(x // 16, z // 16)`, and chain the
attachment as a callback of that request.  No broadcast happens here. -/
def create_entity (counter : Nat) (x y z : Int) : CreateResult :=
  let r := register_entity counter 0
  let bigx := Int.fdiv x 16
  let bigz := Int.fdiv z 16
  ⟨r.1, r.2, [Event.chunkRequested bigx bigz], [Event.attached r.2 bigx bigz]⟩

/-- Result of `give`: updated counter, the pickups created (in order), the
synchronous events, and the events pending on chunk deferreds. -/
structure GiveResult where
  counter : Nat
  pickups : List Pickup
  syncEvents : List Event
  pendingEvents : List Event
deriving DecidableEq, Repr

/-- The `while quantity > 0` loop of `BravoFactory.give`: spawn an "Item"
entity of size `min(quantity, 64)`, broadcast its creation packet
synchronously, and continue with `quantity - 64`. -/
def giveLoop (counter : Nat) (x y z : Int) (item : Int × Int) (quantity : Int) :
    GiveResult :=
  if quantity > 0 then
    let ce := create_entity counter x y z
    let rest := giveLoop ce.counter x y z item (quantity - 64)
    ⟨rest.counter,
      ⟨ce.eid, x, y, z, item, min quantity 64⟩ :: rest.pickups,
      ce.syncEvents ++ [Event.broadcastCreate ce.eid] ++ rest.syncEvents,
      ce.pendingEvents ++ rest.pendingEvents⟩
  else ⟨counter, [], [], []⟩
termination_by quantity.toNat
decreasing_by
  simp_wf
  omega

/-- `BravoFactory.give(coords, block, quantity)`: coordinates are in pixels
and are converted to blocks by `// 32` before spawning. -/
def give (counter : Nat) (coords : Int × Int × Int) (item : Int × Int)
    (quantity : Int) : GiveResult :=
  giveLoop counter (Int.fdiv coords.1 32) (Int.fdiv coords.2.1 32)
    (Int.fdiv coords.2.2 32) item quantity

/-- The observable event order when every requested chunk loads
asynchronously: pending continuations fire after the synchronous body. -/
def asyncTrace (r : GiveResult) : List Event := r.syncEvents ++ r.pendingEvents

/-- Extract the eid of a creation broadcast event. -/
def eventBroadcastEid : Event → Option Nat
  | Event.broadcastCreate i => some i
  | _ => none

theorem giveLoop_pos (counter : Nat) (x y z : Int) (item : Int × Int)
    (q : Int) (h : 0 < q) :
    giveLoop counter x y z item q =
      ⟨(giveLoop (counter + 1) x y z item (q - 64)).counter,
        ⟨counter + 1, x, y, z, item, min q 64⟩ ::
          (giveLoop (counter + 1) x y z item (q - 64)).pickups,
        [Event.chunkRequested (Int.fdiv x 16) (Int.fdiv z 16),
          Event.broadcastCreate (counter + 1)] ++
          (giveLoop (counter + 1) x y z item (q - 64)).syncEvents,
        [Event.attached (counter + 1) (Int.fdiv x 16) (Int.fdiv z 16)] ++
          (giveLoop (counter + 1) x y z item (q - 64)).pendingEvents⟩ := by
  conv_lhs => rw [giveLoop]
  rw [if_pos h]
  rfl

theorem giveLoop_nonpos (counter : Nat) (x y z : Int) (item : Int × Int)
    (q : Int) (h : ¬ 0 < q) :
    giveLoop counter x y z item q = ⟨counter, [], [], []⟩ := by
  rw [giveLoop]
  exact if_neg h

theorem giveLoop_spec :
    ∀ (n counter : Nat) (x y z : Int) (item : Int × Int) (q : Int),
      q.toNat ≤ n → 0 < q →
      ((giveLoop counter x y z item q).pickups.map Pickup.quantity).sum = q ∧
      (∀ p ∈ (giveLoop counter x y z item q).pickups,
        0 < p.quantity ∧ p.quantity ≤ 64 ∧ p.x = x ∧ p.y = y ∧ p.z = z ∧
          p.item = item) ∧
      64 * ((giveLoop counter x y z item q).pickups.length : Int) - 64 < q ∧
      q ≤ 64 * ((giveLoop counter x y z item q).pickups.length : Int) ∧
      (giveLoop counter x y z item q).syncEvents.filterMap eventBroadcastEid =
        (giveLoop counter x y z item q).pickups.map Pickup.eid := by
  intro n
  induction n with
  | zero =>
      intro counter x y z item q hle hq
      exact absurd hle (by omega)
  | succ n ihn =>
      intro counter x y z item q hle hq
      rw [giveLoop_pos counter x y z item q hq]
      by_cases h2 : 0 < q - 64
      · obtain ⟨hsum, hmem, hlb, hub, hbc⟩ :=
          ihn (counter + 1) x y z item (q - 64) (by omega) h2
        refine ⟨?_, ?_, ?_, ?_, ?_⟩
        · simp only [List.map_cons, List.sum_cons, hsum]
          rw [min_eq_right (by omega : (64 : Int) ≤ q)]
          ring
        · intro p hp
          rcases List.mem_cons.mp hp with rfl | hp2
          · exact ⟨by show (0 : Int) < min q 64; omega, min_le_right _ _,
              rfl, rfl, rfl, rfl⟩
          · exact hmem p hp2
        · simp only [List.length_cons]
          push_cast
          push_cast at hlb
          omega
        · simp only [List.length_cons]
          push_cast
          push_cast at hub
          omega
        · simp only [List.filterMap_append, List.map_cons, hbc]
          rfl
      · rw [giveLoop_nonpos (counter + 1) x y z item (q - 64) h2]
        refine ⟨?_, ?_, ?_, ?_, ?_⟩
        · simp only [List.map_cons, List.map_nil, List.sum_cons, List.sum_nil]
          omega
        · intro p hp
          rcases List.mem_cons.mp hp with rfl | hp2
          · exact ⟨by show (0 : Int) < min q 64; omega, min_le_right _ _,
              rfl, rfl, rfl, rfl⟩
          · cases hp2
        · simp only [List.length_cons, List.length_nil]
          push_cast
          omega
        · simp only [List.length_cons, List.length_nil]
          push_cast
          omega
        · rfl

theorem length_eq_ceil (L q : Int) (h1 : 64 * L - 64 < q) (h2 : q ≤ 64 * L) :
    L = ⌈(q : ℚ) / 64⌉ := by
  symm
  rw [Int.ceil_eq_iff]
  have h1q : 64 * (L : ℚ) - 64 < q := by exact_mod_cast h1
  have h2q : (q : ℚ) ≤ 64 * L := by exact_mod_cast h2
  constructor
  · rw [lt_div_iff (by norm_num : (0 : ℚ) < 64)]
    linarith
  · rw [div_le_iff (by norm_num : (0 : ℚ) < 64)]
    linarith

theorem give_138 :
    (give 1 (0, 0, 0) (1, 0) 138).pickups.map Pickup.quantity = [64, 64, 10] := by
  show (giveLoop 1 0 0 0 (1, 0) 138).pickups.map Pickup.quantity = [64, 64, 10]
  rw [giveLoop_pos 1 0 0 0 (1, 0) 138 (by norm_num),
    giveLoop_pos 2 0 0 0 (1, 0) (138 - 64) (by norm_num),
    giveLoop_pos 3 0 0 0 (1, 0) (138 - 64 - 64) (by norm_num),
    giveLoop_nonpos 4 0 0 0 (1, 0) (138 - 64 - 64 - 64) (by norm_num)]
  decide

/-- C7: `give` splits a positive quantity `q` into `ceil(q / 64)` pickups of
at most 64 items each, whose quantities sum to `q`, all spawned at the block
position derived from the given pixel coordinates, with one creation
broadcast per pickup; quantity 138 yields exactly the three stacks
64, 64, 10. -/
theorem give_split_spec (counter : Nat) (coords : Int × Int × Int)
    (item : Int × Int) (q : Int) (h : 0 < q) :
    ((give counter coords item q).pickups.map Pickup.quantity).sum = q ∧
    (∀ p ∈ (give counter coords item q).pickups,
      0 < p.quantity ∧ p.quantity ≤ 64 ∧ p.x = Int.fdiv coords.1 32 ∧
        p.y = Int.fdiv coords.2.1 32 ∧ p.z = Int.fdiv coords.2.2 32) ∧
    (((give counter coords item q).pickups.length : Int) = ⌈(q : ℚ) / 64⌉) ∧
    ((give counter coords item q).syncEvents.filterMap eventBroadcastEid =
      (give counter coords item q).pickups.map Pickup.eid) ∧
    (give 1 (0, 0, 0) (1, 0) 138).pickups.map Pickup.quantity = [64, 64, 10] := by
  obtain ⟨hsum, hmem, hlb, hub, hbc⟩ := giveLoop_spec q.toNat counter
    (Int.fdiv coords.1 32) (Int.fdiv coords.2.1 32) (Int.fdiv coords.2.2 32)
    item q le_rfl h
  exact ⟨hsum, fun p hp => ⟨(hmem p hp).1, (hmem p hp).2.1, (hmem p hp).2.2.1,
    (hmem p hp).2.2.2.1, (hmem p hp).2.2.2.2.1⟩,
    (length_eq_ceil _ q hlb hub).symm ▸ rfl, hbc, give_138⟩

/-- Witness for C7 at quantity 138 from the initial counter. -/
theorem give_split_spec_witness :
    ((give 1 (0, 0, 0) (1, 0) 138).pickups.map Pickup.quantity).sum = 138 ∧
    (give 1 (0, 0, 0) (1, 0) 138).pickups.map Pickup.quantity = [64, 64, 10] :=
  ⟨(give_split_spec 1 (0, 0, 0) (1, 0) 138 (by norm_num)).1,
    (give_split_spec 1 (0, 0, 0) (1, 0) 138 (by norm_num)).2.2.2.2⟩

theorem give_async_trace_eval :
    asyncTrace (give 1 (0, 0, 0) (1, 0) 1) =
      [Event.chunkRequested 0 0, Event.broadcastCreate 2, Event.attached 2 0 0] := by
  show asyncTrace (giveLoop 1 0 0 0 (1, 0) 1) = _
  rw [asyncTrace, giveLoop_pos 1 0 0 0 (1, 0) 1 (by norm_num),
    giveLoop_nonpos 2 0 0 0 (1, 0) (1 - 64) (by norm_num)]
  rfl

/-- C3: the creation broadcast is NOT chained after attachment.  `give`
broadcasts the creation packet synchronously inside its loop, while
`create_entity` only schedules the attachment as a continuation of the
asynchronous chunk request; in the schedule where the chunk is not yet
loaded, the broadcast for the pickup (eid 2) is observed strictly before its
attachment, contradicting the claimed attach-before-broadcast ordering. -/
theorem give_broadcast_before_attach :
    asyncTrace (give 1 (0, 0, 0) (1, 0) 1) =
      [Event.chunkRequested 0 0, Event.broadcastCreate 2, Event.attached 2 0 0] ∧
    (asyncTrace (give 1 (0, 0, 0) (1, 0) 1)).indexOf (Event.broadcastCreate 2) <
      (asyncTrace (give 1 (0, 0, 0) (1, 0) 1)).indexOf (Event.attached 2 0 0) := by
  refine ⟨give_async_trace_eval, ?_⟩
  rw [give_async_trace_eval]
  decide
